import Mathlib

/-!
Verification of the OpenFlexure microscope MCP adapter
(`src/openflexure-server.py`) against its specification.

The adapter is a thin layer over an external microscope-control client.
We embed it shallowly: the device is an abstract state machine whose full
stage position is a triple of integer step counts, and whose reaction to a
move command is an arbitrary function (the client library is an external
collaborator, so theorems quantify over it).  Every operation is embedded
as a pure function that returns its structured result, the device state
after the call, and the ordered trace of device interactions it issued.
Python float arithmetic in the Z-stack step computation is modelled
faithfully to IEEE-754 binary64: every float operation rounds its exact
rational result with `fl` (round to nearest, ties to even, 53-bit
significand, gradual underflow below the normal range; overflow to
infinity is outside the model, all quantities of interest staying far
below 2^1024).  The int/float distinction of the Python values is kept by
`PyNum`, and Python `int()` truncation toward zero is `truncRat`.
-/

namespace OpenFlexure

/-- A full stage position, as reported by `microscope.position` when all
three axis keys are present (keys `x`, `y`, `z` of the position dict). -/
structure Position where
  x : Int
  y : Int
  z : Int
deriving DecidableEq, Repr

/-- A position dictionary sent as a move command: only the axes present in
the dict are included (lines 124-131 build it key by key). -/
structure PosCmd where
  x : Option Int
  y : Option Int
  z : Option Int
deriving DecidableEq, Repr

/-- Python `not position`: the command dict has no keys. -/
def PosCmd.isEmpty (c : PosCmd) : Bool :=
  c.x.isNone && c.y.isNone && c.z.isNone

/-- A command dict containing all three axes, as built by
`run_z_stack` (lines 275-277, 289-291, 305 pass full dicts). -/
def fullCmd (p : Position) : PosCmd :=
  ⟨some p.x, some p.y, some p.z⟩

/-- Whether a move request is `move` (absolute) or `move_rel` (relative). -/
inductive MoveKind where
  | abs
  | rel
deriving DecidableEq, Repr

/-- One interaction with the device, in the order the adapter issues them. -/
inductive Event where
  | readPosition
  | move (kind : MoveKind) (cmd : PosCmd)
  | grabImage
  | extGet (ext link : String)
  | extPost (ext link : String) (payload : List (String × String))
deriving DecidableEq, Repr

/-- The external device as seen through the client: an arbitrary response
to move commands, and the dimensions of grabbed images.  The adapter never
constrains these, so theorems hold for every `DeviceModel`. -/
structure DeviceModel where
  step : Position → MoveKind → PosCmd → Position
  imageWidth : Nat
  imageHeight : Nat

/-- Structured content of the text returned by `move_stage`:
either the validation-failure message (line 134) or the success report
with the interpolated before/after/delta values (lines 146-152). -/
inductive MoveOutcome where
  | noPosition
  | moved (before after delta : Position)
deriving DecidableEq, Repr

/-- Embedding of `move_stage` (lines 110-152).  Builds the command dict from the
supplied optional axes, rejects an empty dict, otherwise reads the
position, issues the move, reads again and reports the componentwise
delta.  Returns (outcome, device position afterwards, event trace). -/
def move_stage (dev : DeviceModel) (s : Position)
    (x y z : Option Int) (relative : Bool) :
    MoveOutcome × Position × List Event :=
  let position : PosCmd := ⟨x, y, z⟩
  if position.isEmpty then
    (.noPosition, s, [])
  else
    let before := s
    let kind : MoveKind := if relative then .rel else .abs
    let s1 := dev.step s kind position
    let after := s1
    (.moved before after
        ⟨after.x - before.x, after.y - before.y, after.z - before.z⟩,
      s1,
      [.readPosition, .move kind position, .readPosition])

/-- Python `int()` applied to a real value: truncation toward zero. -/
def truncRat (q : ℚ) : Int :=
  q.num.tdiv q.den

/-- Round a rational to the nearest integer, ties to even. -/
def roundHalfEven (x : ℚ) : Int :=
  let f := ⌊x⌋
  if x - f < 1/2 then f
  else if 1/2 < x - f then f + 1
  else if 2 ∣ f then f else f + 1

/-- IEEE-754 binary64 rounding of an exact rational value: round to
nearest, ties to even, at 53 significant bits, with gradual underflow
below 2^(-1022) (the quantum is never finer than 2^(-1074), so values
below 2^(-1075) round to zero as in IEEE).  Overflow to infinity is not
modelled; every quantity in this development stays far below 2^1024. -/
def fl (q : ℚ) : ℚ :=
  if q = 0 then 0
  else
    let e := max (Int.log 2 |q|) (-1022)
    (roundHalfEven (q * (2:ℚ) ^ (52 - e)) : ℚ) / (2:ℚ) ^ (52 - e)

/-- A Python number as it flows through `run_z_stack`: either an exact
`int` or a binary64 `float` whose value is carried as the rational it
denotes.  `z_step` is a float when the division on line 269 runs and the
int 0 otherwise, which changes the arithmetic of the loop. -/
inductive PyNum where
  | int (n : Int)
  | float (q : ℚ)
deriving DecidableEq, Repr

/-- Python `i * v` for an int `i`: int times int is exact; int times
float converts `i` to a double and multiplies with one rounding. -/
def pyMul (i : Int) (v : PyNum) : PyNum :=
  match v with
  | .int n => .int (i * n)
  | .float q => .float (fl (fl (i : ℚ) * q))

/-- Python `a + v` for an int `a`: int plus int is exact; int plus float
converts `a` to a double and adds with one rounding. -/
def pyAdd (a : Int) (v : PyNum) : PyNum :=
  match v with
  | .int n => .int (a + n)
  | .float q => .float (fl (fl (a : ℚ) + q))

/-- Python `int(v)`: the identity on ints, truncation toward zero on
floats. -/
def pyTrunc : PyNum → Int
  | .int n => n
  | .float q => truncRat q

/-- One entry of `captured_positions` (lines 298-302): 1-based index, the
Z read back from the device after the move, and the image dimensions. -/
structure ZRec where
  index : Nat
  z : Int
  width : Nat
  height : Nat
deriving DecidableEq, Repr

/-- Structured content of the `run_z_stack` summary text (lines 307-318):
number of captured images, the requested Z range, the step size, the list
of achieved Z positions, and the position read for the final line. -/
structure ZStackResult where
  captured : List ZRec
  startZ : Int
  endZ : Int
  zStep : PyNum
  finalPos : Position
deriving DecidableEq, Repr

/-- The `for i in range(steps)` loop of `run_z_stack` (lines 284-302):
`count` iterations remain and `i` is the current loop index.  Each
iteration computes `current_z = start_z + i * z_step` with Python
int/float semantics (double rounding at each float operation), moves to a
copy of `new_pos` with `z` set to `int(current_z)`, reads the achieved
position, grabs a preview image and records the entry. -/
def zstackIter (dev : DeviceModel) (new_pos : Position)
    (start_z : Int) (z_step : PyNum) :
    Nat → Nat → Position → List ZRec × Position × List Event
  | 0, _, s => ([], s, [])
  | count + 1, i, s =>
    let current_z : PyNum := pyAdd start_z (pyMul (i : Int) z_step)
    let current_pos : Position := { new_pos with z := pyTrunc current_z }
    let s1 := dev.step s .abs (fullCmd current_pos)
    let entry : ZRec := ⟨i + 1, s1.z, dev.imageWidth, dev.imageHeight⟩
    let rest := zstackIter dev new_pos start_z z_step count (i + 1) s1
    (entry :: rest.1, rest.2.1,
      .move .abs (fullCmd current_pos) :: .readPosition :: .grabImage ::
        rest.2.2)

/-- Embedding of `run_z_stack` (lines 256-318).  Computes the step size
(guarding the division by `steps - 1`; Python int/int true division
yields the correctly rounded double of the exact quotient, while the else
branch yields the exact int 0), saves the current position, moves to the start Z
with the other axes at their saved values, runs the capture loop, then
moves back to the saved position and reads the position for the summary.
`steps` is an `Int` as in Python; `range(steps)` is empty for
`steps ≤ 0`, which `Int.toNat` reproduces. -/
def run_z_stack (dev : DeviceModel) (s : Position)
    (start_z end_z : Int) (steps : Int) :
    ZStackResult × Position × List Event :=
  let z_step : PyNum :=
    if steps > 1 then
      .float (fl (((end_z : ℚ) - (start_z : ℚ)) / ((steps : ℚ) - 1)))
    else .int 0
  let start_pos := s
  let new_pos : Position := { start_pos with z := start_z }
  let s1 := dev.step s .abs (fullCmd new_pos)
  let loop := zstackIter dev new_pos start_z z_step steps.toNat 0 s1
  let s2 := dev.step loop.2.1 .abs (fullCmd start_pos)
  (⟨loop.1, start_z, end_z, z_step, s2⟩, s2,
    .readPosition :: .move .abs (fullCmd new_pos) ::
      (loop.2.2 ++ [.move .abs (fullCmd start_pos), .readPosition]))

/-- A concrete device for witnesses: moves set exactly the commanded axes
and images are 640x480. -/
def demoDev : DeviceModel :=
  ⟨fun s _ c => ⟨c.x.getD s.x, c.y.getD s.y, c.z.getD s.z⟩, 640, 480⟩

/-- The Z value the claim asserts for loop iteration `i` when
`steps = N > 1`: the integer truncation of the EXACT rational value
`start_z + i * ((end_z - start_z) / (N - 1))`, with no float rounding. -/
def stackCmdZ (start_z end_z N : Int) (i : Nat) : Int :=
  truncRat ((start_z : ℚ) +
    (i : ℚ) * (((end_z : ℚ) - (start_z : ℚ)) / ((N : ℚ) - 1)))

/-- The Z value `run_z_stack` actually commands at loop iteration `i`
when `steps = N > 1`: `int(start_z + i * ((end_z - start_z) / (N - 1)))`
evaluated with Python float semantics, every operation rounded to
binary64. -/
def stackCmdZFloat (start_z end_z N : Int) (i : Nat) : Int :=
  pyTrunc (pyAdd start_z (pyMul (i : Int)
    (.float (fl (((end_z : ℚ) - (start_z : ℚ)) / ((N : ℚ) - 1))))))

/-- One extension link as seen through the client: the outcome of its
parameter-less `get()` and of `post_json(payload)`.  An `Except.error`
value models the call raising an exception; the payload is the JSON body
modelled as string key-value pairs (an empty list is the empty dict). -/
structure Link where
  get : Except String String
  post : List (String × String) → Except String String

/-- The registry `microscope.extensions`: extension identifiers mapped to
their named links, keys unique as in a Python dict. -/
abbrev Extensions := List (String × List (String × Link))

/-- Python `str.lower()` on the ASCII method selectors used here:
lower-case every character. -/
def strLower (s : String) : String :=
  ⟨s.data.map Char.toLower⟩

/-- Structured content of the text `call_extension` returns: the three
validation failures (each carrying the listing interpolated into the
message), the success report, or the caught-exception message. -/
inductive ExtResult where
  | unknownExtension (ext : String) (available : List String)
  | unknownLink (ext link : String) (available : List String)
  | unknownMethod (method : String)
  | success (ext link method result : String)
  | dispatchError (message : String)
deriving DecidableEq, Repr

/-- Embedding of `call_extension` (lines 210-254): check the extension identifier
against the registry (listing the known identifiers on failure), then the
link name against the extension (listing its links on failure), then
dispatch on the lower-cased method: `get` issues the parameter-less
fetch, `post` issues `post_json` with the payload defaulted to the empty
dict, anything else is rejected unsupported.  An exception raised by the
dispatched call is caught and becomes `dispatchError`.  Returns the
structured result and the trace of device calls issued. -/
def call_extension (exts : Extensions) (extension_name link_name : String)
    (method : String) (payload : Option (List (String × String))) :
    ExtResult × List Event :=
  match exts.lookup extension_name with
  | none => (.unknownExtension extension_name (exts.map Prod.fst), [])
  | some links =>
    match links.lookup link_name with
    | none => (.unknownLink extension_name link_name (links.map Prod.fst), [])
    | some link =>
      if strLower method = "get" then
        match link.get with
        | .ok r => (.success extension_name link_name method r,
            [.extGet extension_name link_name])
        | .error e => (.dispatchError e, [.extGet extension_name link_name])
      else if strLower method = "post" then
        let p := payload.getD []
        match link.post p with
        | .ok r => (.success extension_name link_name method r,
            [.extPost extension_name link_name p])
        | .error e => (.dispatchError e, [.extPost extension_name link_name p])
      else (.unknownMethod method, [])

/-- Structured content of the text `get_microscope_info` returns: the
detailed report (lines 47-57) or the fallback report (lines 60-67) with
the hard-coded connection address, the extension listing and the note
about the failure. -/
inductive InfoReport where
  | full (device_id nm version board : String) (extensions : List String)
  | degraded (address : String) (extensions : List String) (note : String)
deriving DecidableEq, Repr

/-- Embedding of `get_microscope_info` (lines 37-67).  The well-known device-info
fetch is the chained call on line 46; `Except.error` models it raising.
On success the four fields are read from the returned dict with default
value Unknown; on failure the fallback report carries the fixed address,
the extension identifiers and the stringified exception. -/
def get_microscope_info (fetch : Except String (List (String × String)))
    (extensions : List String) : InfoReport :=
  match fetch with
  | .ok info => .full ((info.lookup "device_id").getD "Unknown")
      ((info.lookup "name").getD "Unknown")
      ((info.lookup "version").getD "Unknown")
      ((info.lookup "board").getD "Unknown")
      extensions
  | .error e => .degraded "192.168.100.124" extensions e

/-- The position dictionary as reported by the device to `get_position`:
any of the axis keys may be absent. -/
structure PosDict where
  x : Option Int
  y : Option Int
  z : Option Int
deriving DecidableEq, Repr

/-- Structured content of the `get_position` text (lines 78-87): the
three labelled step counts and the raw positional array. -/
structure PositionReport where
  x : Int
  y : Int
  z : Int
  array : List Int
deriving DecidableEq, Repr

/-- Embedding of `get_position` (lines 69-87): each labelled axis is read with
`position.get(key, 0)`, so a missing key renders as 0; the array form is
interpolated unchanged. -/
def get_position (position : PosDict) (position_array : List Int) :
    PositionReport :=
  ⟨position.x.getD 0, position.y.getD 0, position.z.getD 0, position_array⟩

/-- A demo registry for witnesses: one extension with one link whose
calls succeed. -/
def demoExts : Extensions :=
  [("org.openflexure.microscope",
    [("device-info", ⟨.ok "infoResult", fun _ => .ok "posted"⟩)])]

/-- A demo registry for witnesses: one extension with one link whose
calls raise. -/
def failExts : Extensions :=
  [("ext", [("lnk", ⟨.error "boom", fun _ => .error "kaboom"⟩)])]

/-- Python `int(n)` on an integer-valued rational is the integer itself. -/
theorem truncRat_intCast (n : Int) : truncRat (n : ℚ) = n := by
  simp [truncRat, Rat.num_intCast, Rat.den_intCast, Int.tdiv_one]

/-- Python `int(q)` of a value in `[0, 1)` is 0. -/
theorem truncRat_eq_zero (q : ℚ) (h0 : 0 ≤ q) (h1 : q < 1) :
    truncRat q = 0 := by
  have hn : 0 ≤ q.num := Rat.num_nonneg.2 h0
  have hd : q.num < (q.den : ℤ) := Rat.lt_one_iff_num_lt_denom.1 h1
  rw [truncRat, Int.tdiv_eq_ediv hn (by positivity)]
  exact Int.ediv_eq_zero_of_lt hn hd

/-- Characterization of the half-even rounder when the value lies
strictly below the midpoint above `f`. -/
theorem roundHalfEven_eq_down (x : ℚ) (f : Int) (h1 : (f:ℚ) ≤ x)
    (h2 : x - f < 1/2) : roundHalfEven x = f := by
  have hf : ⌊x⌋ = f := Int.floor_eq_iff.2 ⟨h1, by linarith⟩
  simp only [roundHalfEven]
  rw [hf, if_pos h2]

/-- Characterization of the half-even rounder when the value lies
strictly above the midpoint above `f`. -/
theorem roundHalfEven_eq_up (x : ℚ) (f : Int) (h1 : (f:ℚ) ≤ x)
    (h2 : 1/2 < x - f) (h3 : x < f + 1) : roundHalfEven x = f + 1 := by
  have hf : ⌊x⌋ = f := Int.floor_eq_iff.2 ⟨h1, h3⟩
  simp only [roundHalfEven]
  rw [hf, if_neg (by linarith : ¬ x - (f:ℚ) < 1/2), if_pos h2]

/-- Characterization of binary64 rounding in the normal range: when
`2^e ≤ |q| < 2^(e+1)` with `e ≥ -1022`, the rounded value is the
half-even rounding of the 53-bit scaled significand. -/
theorem fl_eq_of (q : ℚ) (e m : Int)
    (h1 : (2:ℚ) ^ e ≤ |q|) (h2 : |q| < (2:ℚ) ^ (e + 1)) (h3 : -1022 ≤ e)
    (h4 : roundHalfEven (q * (2:ℚ) ^ (52 - e)) = m) :
    fl q = (m : ℚ) / (2:ℚ) ^ (52 - e) := by
  have hq : q ≠ 0 := by
    intro h
    rw [h, abs_zero] at h1
    have hpos : (0:ℚ) < (2:ℚ) ^ e := by positivity
    linarith
  have habs : (0:ℚ) < |q| := abs_pos.2 hq
  have h1' : ((2:ℕ):ℚ) ^ e ≤ |q| := by exact_mod_cast h1
  have h2' : |q| < ((2:ℕ):ℚ) ^ (e+1) := by exact_mod_cast h2
  have hlog : Int.log 2 |q| = e := by
    have l1 : e ≤ Int.log 2 |q| :=
      (Int.zpow_le_iff_le_log (by norm_num) habs).1 h1'
    have l2 : Int.log 2 |q| < e + 1 :=
      (Int.lt_zpow_iff_log_lt (by norm_num) habs).1 h2'
    omega
  rw [fl, if_neg hq]
  simp only [hlog, max_eq_left h3]
  rw [h4]

/-- Binary64 rounding fixes zero. -/
theorem fl_zero : fl 0 = 0 := by
  simp [fl]

/-- Binary64 rounding is exact on nonzero integers below `2^53`. -/
theorem fl_intCast_small (n : Int) (h0 : n ≠ 0) (h : |n| < 2 ^ 53) :
    fl (n : ℚ) = n := by
  have habs : (0:ℚ) < |(n:ℚ)| := abs_pos.2 (Int.cast_ne_zero.2 h0)
  have hcast : |(n:ℚ)| = ((|n| : ℤ) : ℚ) := by push_cast; ring
  have hone : ((2:ℕ):ℚ) ^ (0:ℤ) ≤ |(n:ℚ)| := by
    rw [zpow_zero, hcast]
    exact_mod_cast Int.one_le_abs h0
  have hub : |(n:ℚ)| < ((2:ℕ):ℚ) ^ (53:ℤ) := by
    rw [hcast, show ((53:ℤ)) = ((53:ℕ):ℤ) by norm_num, zpow_natCast]
    exact_mod_cast h
  set e := Int.log 2 |(n:ℚ)| with he
  have h1 : ((2:ℕ):ℚ) ^ e ≤ |(n:ℚ)| := Int.zpow_log_le_self (by norm_num) habs
  have h2 : |(n:ℚ)| < ((2:ℕ):ℚ) ^ (e + 1) :=
    Int.lt_zpow_succ_log_self (by norm_num) _
  have he0 : 0 ≤ e := (Int.zpow_le_iff_le_log (by norm_num) habs).1 hone
  have he52 : e < 53 := (Int.lt_zpow_iff_log_lt (by norm_num) habs).1 hub
  obtain ⟨k, hk⟩ : ∃ k : ℕ, (52 - e) = (k:ℤ) :=
    ⟨(52 - e).toNat, (Int.toNat_of_nonneg (by omega)).symm⟩
  have hx : (n:ℚ) * (2:ℚ) ^ (52 - e) = ((n * 2 ^ k : ℤ) : ℚ) := by
    rw [hk, zpow_natCast]
    push_cast
    ring
  have hr : roundHalfEven ((n:ℚ) * (2:ℚ) ^ (52 - e)) = n * 2 ^ k := by
    apply roundHalfEven_eq_down
    · rw [hx]
    · rw [hx]
      norm_num
  have hfl := fl_eq_of (n:ℚ) e (n * 2 ^ k)
    (by exact_mod_cast h1) (by exact_mod_cast h2) (by omega) hr
  rw [hfl, ← hx, mul_div_assoc, div_self (by positivity), mul_one]

/-- Binary64 rounding is exact on integers below `2^53`. -/
theorem fl_intCast (n : Int) (h : |n| < 2 ^ 53) : fl (n : ℚ) = n := by
  rcases eq_or_ne n 0 with rfl | h0
  · simp [fl_zero]
  · exact fl_intCast_small n h0 h

/-- When the exact step is an integer `d` and all intermediate values of
the loop arithmetic stay below `2^53`, the float evaluation of the
commanded Z coincides with the exact one. -/
theorem stackCmdZFloat_exact (start_z end_z N : Int) (i : Nat) (d : Int)
    (hd : ((end_z : ℚ) - (start_z : ℚ)) / ((N : ℚ) - 1) = (d : ℚ))
    (h1 : |d| < 2 ^ 53) (h2 : |(i : Int)| < 2 ^ 53)
    (h3 : |(i : Int) * d| < 2 ^ 53) (h4 : |start_z| < 2 ^ 53)
    (h5 : |start_z + (i : Int) * d| < 2 ^ 53) :
    stackCmdZFloat start_z end_z N i = start_z + (i : Int) * d := by
  simp only [stackCmdZFloat, pyMul, pyAdd, pyTrunc]
  rw [hd, fl_intCast d h1, fl_intCast ((i : Nat) : Int) h2]
  rw [show (((i : Nat) : Int) : ℚ) * (d : ℚ) =
      ((((i : Nat) : Int) * d : Int) : ℚ) by push_cast; ring]
  rw [fl_intCast (((i : Nat) : Int) * d) h3, fl_intCast start_z h4]
  rw [show ((start_z : ℚ)) + ((((i : Nat) : Int) * d : Int) : ℚ) =
      ((start_z + ((i : Nat) : Int) * d : Int) : ℚ) by push_cast; ring]
  rw [fl_intCast (start_z + ((i : Nat) : Int) * d) h5, truncRat_intCast]

/-- Closed form of the capture loop event trace: iteration `j` of the
remaining `n` (with loop counter starting at `i`) issues a move to
`new_pos` with `z` replaced by `int(start_z + (i+j) * z_step)`, then a
position read, then a grab. -/
theorem zstackIter_trace (dev : DeviceModel) (np : Position)
    (start : Int) (st : PyNum) :
    ∀ (n i : Nat) (s : Position),
      (zstackIter dev np start st n i s).2.2 =
        ((List.range n).map (fun j =>
          [Event.move .abs (fullCmd
              { np with z := pyTrunc (pyAdd start (pyMul ((i + j : Nat) : Int) st)) }),
            Event.readPosition, Event.grabImage])).flatten := by
  intro n
  induction n with
  | zero => intro i s; simp [zstackIter]
  | succ n ih =>
    intro i s
    simp only [zstackIter]
    rw [ih, List.range_succ_eq_map]
    simp only [List.map_cons, List.flatten_cons, List.map_map,
      Function.comp_def, Nat.add_succ, Nat.succ_add, Nat.add_zero,
      List.cons_append, List.nil_append]

/-- The capture loop records one entry per iteration. -/
theorem zstackIter_length (dev : DeviceModel) (np : Position)
    (start : Int) (st : PyNum) :
    ∀ (n i : Nat) (s : Position),
      (zstackIter dev np start st n i s).1.length = n := by
  intro n
  induction n with
  | zero => intro i s; simp [zstackIter]
  | succ n ih => intro i s; simp [zstackIter, ih]

end OpenFlexure

namespace OpenFlexure

/-- C1: when at least one axis is supplied, the issued command carries
exactly the supplied axes, and the reported delta is the componentwise
difference of the position read after the move and the one read before. -/
theorem move_stage_delta (dev : DeviceModel) (s : Position)
    (x y z : Option Int) (relative : Bool)
    (h : x.isSome ∨ y.isSome ∨ z.isSome) :
    ∃ kind,
      (move_stage dev s x y z relative).2.2 =
        [.readPosition, .move kind ⟨x, y, z⟩, .readPosition] ∧
      (move_stage dev s x y z relative).1 =
        .moved s (dev.step s kind ⟨x, y, z⟩)
          ⟨(dev.step s kind ⟨x, y, z⟩).x - s.x,
           (dev.step s kind ⟨x, y, z⟩).y - s.y,
           (dev.step s kind ⟨x, y, z⟩).z - s.z⟩ ∧
      (move_stage dev s x y z relative).2.1 = dev.step s kind ⟨x, y, z⟩ := by
  refine ⟨if relative then .rel else .abs, ?_⟩
  have hne : (PosCmd.mk x y z).isEmpty = false := by
    rcases h with h | h | h <;>
      simp [PosCmd.isEmpty, Option.isNone_iff_eq_none,
        Option.isSome_iff_exists] at h ⊢ <;>
      rcases h with ⟨v, rfl⟩ <;> simp
  simp [move_stage, hne]

/-- Witness for C1 at a concrete device and input. -/
theorem move_stage_delta_witness :
    ∃ kind,
      (move_stage ⟨fun s _ c => ⟨c.x.getD s.x, c.y.getD s.y, c.z.getD s.z⟩,
          640, 480⟩ ⟨0, 0, 0⟩ (some 10) none none false).2.2 =
        [.readPosition, .move kind ⟨some 10, none, none⟩, .readPosition] ∧
      (move_stage ⟨fun s _ c => ⟨c.x.getD s.x, c.y.getD s.y, c.z.getD s.z⟩,
          640, 480⟩ ⟨0, 0, 0⟩ (some 10) none none false).1 =
        .moved ⟨0, 0, 0⟩
          ((⟨fun s _ c => ⟨c.x.getD s.x, c.y.getD s.y, c.z.getD s.z⟩,
              640, 480⟩ : DeviceModel).step ⟨0, 0, 0⟩ kind
            ⟨some 10, none, none⟩)
          ⟨((⟨fun s _ c => ⟨c.x.getD s.x, c.y.getD s.y, c.z.getD s.z⟩,
              640, 480⟩ : DeviceModel).step ⟨0, 0, 0⟩ kind
              ⟨some 10, none, none⟩).x - 0,
           ((⟨fun s _ c => ⟨c.x.getD s.x, c.y.getD s.y, c.z.getD s.z⟩,
              640, 480⟩ : DeviceModel).step ⟨0, 0, 0⟩ kind
              ⟨some 10, none, none⟩).y - 0,
           ((⟨fun s _ c => ⟨c.x.getD s.x, c.y.getD s.y, c.z.getD s.z⟩,
              640, 480⟩ : DeviceModel).step ⟨0, 0, 0⟩ kind
              ⟨some 10, none, none⟩).z - 0⟩ ∧
      (move_stage ⟨fun s _ c => ⟨c.x.getD s.x, c.y.getD s.y, c.z.getD s.z⟩,
          640, 480⟩ ⟨0, 0, 0⟩ (some 10) none none false).2.1 =
        (⟨fun s _ c => ⟨c.x.getD s.x, c.y.getD s.y, c.z.getD s.z⟩,
            640, 480⟩ : DeviceModel).step ⟨0, 0, 0⟩ kind
          ⟨some 10, none, none⟩ := by
  have h := move_stage_delta
    ⟨fun s _ c => ⟨c.x.getD s.x, c.y.getD s.y, c.z.getD s.z⟩, 640, 480⟩
    ⟨0, 0, 0⟩ (some 10) none none false (Or.inl rfl)
  obtain ⟨kind, h1, h2, h3⟩ := h
  exact ⟨kind, h1, by simpa using h2, h3⟩

/-- C2 (amended): with `steps = N > 1` the loop runs exactly `N`
move-then-capture iterations, and the Z commanded at iteration `i` is the
integer truncation of the IEEE-double evaluation of
`start_z + i * ((end_z - start_z) / (N - 1))` (each operation correctly
rounded to binary64). -/
theorem run_z_stack_commanded (dev : DeviceModel) (s : Position)
    (start_z end_z : Int) (N : Int) (h : 1 < N) :
    (run_z_stack dev s start_z end_z N).1.captured.length = N.toNat ∧
    (run_z_stack dev s start_z end_z N).2.2 =
      [Event.readPosition, Event.move .abs (fullCmd { s with z := start_z })] ++
        ((List.range N.toNat).map (fun i =>
          [Event.move .abs (fullCmd { s with z := stackCmdZFloat start_z end_z N i }),
            Event.readPosition, Event.grabImage])).flatten ++
        [Event.move .abs (fullCmd s), Event.readPosition] := by
  constructor
  · simp [run_z_stack, zstackIter_length]
  · simp only [run_z_stack, if_pos h]
    rw [zstackIter_trace]
    simp [Nat.zero_add, stackCmdZFloat]

/-- Counterexample to C2 as stated: at `start_z=0, end_z=1, steps=50` the
move of loop iteration 49 commands Z = 0, because the double
`49 * (1/49)` is strictly below 1 (the division rounds `1/49` down, so
the product rounds to `1 - 2^(-53)`), while the exact formula asserted by
the claim gives `int(0 + 49 * ((1-0)/(50-1))) = int(1) = 1`. -/
theorem run_z_stack_commanded_counterexample :
    (run_z_stack demoDev ⟨0, 0, 0⟩ 0 1 50).2.2 =
      [Event.readPosition, Event.move .abs (fullCmd ⟨0, 0, 0⟩)] ++
        ((List.range 50).map (fun i =>
          [Event.move .abs (fullCmd { x := 0, y := 0, z := stackCmdZFloat 0 1 50 i }),
            Event.readPosition, Event.grabImage])).flatten ++
        [Event.move .abs (fullCmd ⟨0, 0, 0⟩), Event.readPosition] ∧
    stackCmdZFloat 0 1 50 49 = 0 ∧
    stackCmdZ 0 1 50 49 = 1 := by
  refine ⟨?_, ?_, ?_⟩
  · simp only [run_z_stack, if_pos (show (1:Int) < 50 by norm_num)]
    rw [zstackIter_trace]
    simp [stackCmdZFloat]
  · have e1 : fl (1/49 : ℚ) = 5882252574524729 / (2:ℚ) ^ (58:ℤ) := by
      have hr : roundHalfEven ((1/49 : ℚ) * (2:ℚ) ^ (52 - (-6) : ℤ)) =
          5882252574524729 := by
        apply roundHalfEven_eq_down <;> norm_num
      have h := fl_eq_of (1/49 : ℚ) (-6) 5882252574524729
        (by rw [abs_of_nonneg (by norm_num : (0:ℚ) ≤ 1/49)]; norm_num)
        (by rw [abs_of_nonneg (by norm_num : (0:ℚ) ≤ 1/49)]; norm_num)
        (by norm_num) hr
      rw [h]
      norm_num
    have e2 : fl ((49:ℚ) * (5882252574524729 / (2:ℚ) ^ (58:ℤ))) =
        9007199254740991 / (2:ℚ) ^ (53:ℤ) := by
      have hr : roundHalfEven ((49:ℚ) * (5882252574524729 / (2:ℚ) ^ (58:ℤ)) *
          (2:ℚ) ^ (52 - (-1) : ℤ)) = 9007199254740991 := by
        apply roundHalfEven_eq_down <;> norm_num
      have h := fl_eq_of ((49:ℚ) * (5882252574524729 / (2:ℚ) ^ (58:ℤ))) (-1)
        9007199254740991
        (by rw [abs_of_nonneg (by norm_num :
            (0:ℚ) ≤ 49 * (5882252574524729 / (2:ℚ) ^ (58:ℤ)))]; norm_num)
        (by rw [abs_of_nonneg (by norm_num :
            (0:ℚ) ≤ 49 * (5882252574524729 / (2:ℚ) ^ (58:ℤ)))]; norm_num)
        (by norm_num) hr
      rw [h]
      norm_num
    have e3 : fl (9007199254740991 / (2:ℚ) ^ (53:ℤ)) =
        9007199254740991 / (2:ℚ) ^ (53:ℤ) := by
      have hr : roundHalfEven ((9007199254740991 / (2:ℚ) ^ (53:ℤ)) *
          (2:ℚ) ^ (52 - (-1) : ℤ)) = 9007199254740991 := by
        apply roundHalfEven_eq_down <;> norm_num
      have h := fl_eq_of (9007199254740991 / (2:ℚ) ^ (53:ℤ)) (-1)
        9007199254740991
        (by rw [abs_of_nonneg (by norm_num :
            (0:ℚ) ≤ 9007199254740991 / (2:ℚ) ^ (53:ℤ))]; norm_num)
        (by rw [abs_of_nonneg (by norm_num :
            (0:ℚ) ≤ 9007199254740991 / (2:ℚ) ^ (53:ℤ))]; norm_num)
        (by norm_num) hr
      rw [h]
      norm_num
    have e49 : fl ((49:ℚ)) = 49 := by
      have h := fl_intCast_small 49 (by norm_num) (by norm_num)
      push_cast at h
      exact h
    simp only [stackCmdZFloat, pyMul, pyAdd, pyTrunc]
    rw [show (((1:Int):ℚ) - ((0:Int):ℚ)) / (((50:Int):ℚ) - 1) = 1/49 by
      norm_num]
    rw [e1]
    rw [show ((((49:Nat):Int)):ℚ) = (49:ℚ) by norm_num]
    rw [e49, e2]
    rw [show ((0:Int):ℚ) = (0:ℚ) by norm_num]
    rw [fl_zero, zero_add, e3]
    apply truncRat_eq_zero
    · positivity
    · norm_num
  · norm_num [stackCmdZ, truncRat]

/-- Witness for C2: the spec example `run_z_stack(start_z=0, end_z=90,
steps=10)` commands Z = 0, 10, 20, ..., 90 (those doubles are all exact),
with ten captures, while the other axes stay at their saved values
(1, 2). -/
theorem run_z_stack_commanded_witness :
    (1 : Int) < 10 ∧
    ((run_z_stack demoDev ⟨1, 2, 3⟩ 0 90 10).1.captured.length = 10 ∧
      (run_z_stack demoDev ⟨1, 2, 3⟩ 0 90 10).2.2 =
        [Event.readPosition, Event.move .abs ⟨some 1, some 2, some 0⟩,
          Event.move .abs ⟨some 1, some 2, some 0⟩, .readPosition, .grabImage,
          Event.move .abs ⟨some 1, some 2, some 10⟩, .readPosition, .grabImage,
          Event.move .abs ⟨some 1, some 2, some 20⟩, .readPosition, .grabImage,
          Event.move .abs ⟨some 1, some 2, some 30⟩, .readPosition, .grabImage,
          Event.move .abs ⟨some 1, some 2, some 40⟩, .readPosition, .grabImage,
          Event.move .abs ⟨some 1, some 2, some 50⟩, .readPosition, .grabImage,
          Event.move .abs ⟨some 1, some 2, some 60⟩, .readPosition, .grabImage,
          Event.move .abs ⟨some 1, some 2, some 70⟩, .readPosition, .grabImage,
          Event.move .abs ⟨some 1, some 2, some 80⟩, .readPosition, .grabImage,
          Event.move .abs ⟨some 1, some 2, some 90⟩, .readPosition, .grabImage,
          Event.move .abs ⟨some 1, some 2, some 3⟩, Event.readPosition]) := by
  have h := run_z_stack_commanded demoDev ⟨1, 2, 3⟩ 0 90 10 (by decide)
  refine ⟨by decide, h.1.trans (by decide), h.2.trans ?_⟩
  have hr : List.range 10 = [0, 1, 2, 3, 4, 5, 6, 7, 8, 9] := rfl
  have e0 : stackCmdZFloat 0 90 10 0 = 0 := by
    rw [stackCmdZFloat_exact 0 90 10 0 10 (by norm_num) (by norm_num) (by push_cast; norm_num)
      (by push_cast; norm_num) (by norm_num) (by push_cast; norm_num)]
    norm_num
  have e1 : stackCmdZFloat 0 90 10 1 = 10 := by
    rw [stackCmdZFloat_exact 0 90 10 1 10 (by norm_num) (by norm_num) (by push_cast; norm_num)
      (by push_cast; norm_num) (by norm_num) (by push_cast; norm_num)]
    norm_num
  have e2 : stackCmdZFloat 0 90 10 2 = 20 := by
    rw [stackCmdZFloat_exact 0 90 10 2 10 (by norm_num) (by norm_num) (by push_cast; norm_num)
      (by push_cast; norm_num) (by norm_num) (by push_cast; norm_num)]
    norm_num
  have e3 : stackCmdZFloat 0 90 10 3 = 30 := by
    rw [stackCmdZFloat_exact 0 90 10 3 10 (by norm_num) (by norm_num) (by push_cast; norm_num)
      (by push_cast; norm_num) (by norm_num) (by push_cast; norm_num)]
    norm_num
  have e4 : stackCmdZFloat 0 90 10 4 = 40 := by
    rw [stackCmdZFloat_exact 0 90 10 4 10 (by norm_num) (by norm_num) (by push_cast; norm_num)
      (by push_cast; norm_num) (by norm_num) (by push_cast; norm_num)]
    norm_num
  have e5 : stackCmdZFloat 0 90 10 5 = 50 := by
    rw [stackCmdZFloat_exact 0 90 10 5 10 (by norm_num) (by norm_num) (by push_cast; norm_num)
      (by push_cast; norm_num) (by norm_num) (by push_cast; norm_num)]
    norm_num
  have e6 : stackCmdZFloat 0 90 10 6 = 60 := by
    rw [stackCmdZFloat_exact 0 90 10 6 10 (by norm_num) (by norm_num) (by push_cast; norm_num)
      (by push_cast; norm_num) (by norm_num) (by push_cast; norm_num)]
    norm_num
  have e7 : stackCmdZFloat 0 90 10 7 = 70 := by
    rw [stackCmdZFloat_exact 0 90 10 7 10 (by norm_num) (by norm_num) (by push_cast; norm_num)
      (by push_cast; norm_num) (by norm_num) (by push_cast; norm_num)]
    norm_num
  have e8 : stackCmdZFloat 0 90 10 8 = 80 := by
    rw [stackCmdZFloat_exact 0 90 10 8 10 (by norm_num) (by norm_num) (by push_cast; norm_num)
      (by push_cast; norm_num) (by norm_num) (by push_cast; norm_num)]
    norm_num
  have e9 : stackCmdZFloat 0 90 10 9 = 90 := by
    rw [stackCmdZFloat_exact 0 90 10 9 10 (by norm_num) (by norm_num) (by push_cast; norm_num)
      (by push_cast; norm_num) (by norm_num) (by push_cast; norm_num)]
    norm_num
  simp [hr, e0, e1, e2, e3, e4, e5, e6, e7, e8, e9, fullCmd]

/-- C3: every move commanded during a Z-stack (initial, per-iteration and
final) carries the non-Z axes at the values saved before the stack, and
the stack ends with a move to exactly the saved full position followed by
the position read of the summary. -/
theorem run_z_stack_restores (dev : DeviceModel) (s : Position)
    (start_z end_z steps : Int) :
    (∀ k c, Event.move k c ∈ (run_z_stack dev s start_z end_z steps).2.2 →
        c.x = some s.x ∧ c.y = some s.y) ∧
    ∃ pre, (run_z_stack dev s start_z end_z steps).2.2 =
        pre ++ [Event.move .abs (fullCmd s), Event.readPosition] := by
  constructor
  · intro k c hc
    simp only [run_z_stack] at hc
    rw [zstackIter_trace] at hc
    simp only [List.mem_cons, List.mem_append, List.mem_flatten,
      List.mem_map] at hc
    rcases hc with hc | hc | ⟨⟨l, ⟨j, _, rfl⟩, hl⟩ | hc⟩ <;>
      simp_all [fullCmd]
  · simp only [run_z_stack]
    exact ⟨Event.readPosition :: Event.move .abs
        (fullCmd { s with z := start_z }) :: _, rfl⟩

/-- C6: a single-step stack has step size the exact int 0 (the guarded
division is not taken, so the loop arithmetic is pure integer
arithmetic), captures exactly one image, and commands it at exactly
Z = `start_z`. -/
theorem run_z_stack_single (dev : DeviceModel) (s : Position)
    (start_z end_z : Int) :
    (run_z_stack dev s start_z end_z 1).1.zStep = .int 0 ∧
    (run_z_stack dev s start_z end_z 1).1.captured.length = 1 ∧
    (run_z_stack dev s start_z end_z 1).2.2 =
      [Event.readPosition, Event.move .abs (fullCmd { s with z := start_z }),
        Event.move .abs (fullCmd { s with z := start_z }),
        Event.readPosition, Event.grabImage,
        Event.move .abs (fullCmd s), Event.readPosition] := by
  refine ⟨?_, ?_, ?_⟩
  · simp [run_z_stack]
  · simp [run_z_stack, zstackIter_length]
  · simp only [run_z_stack]
    rw [zstackIter_trace]
    norm_num [pyMul, pyAdd, pyTrunc]

/-- C9: with `steps ≤ 0` the loop body never runs (no capture, no
per-iteration move, no division), yet the adapter still issues the move to
`start_z` with the other axes at their saved values and the restore move,
and returns a normal summary whose captured list is empty. -/
theorem run_z_stack_nonpositive (dev : DeviceModel) (s : Position)
    (start_z end_z steps : Int) (h : steps ≤ 0) :
    (run_z_stack dev s start_z end_z steps).1.captured = [] ∧
    (run_z_stack dev s start_z end_z steps).1.zStep = .int 0 ∧
    (run_z_stack dev s start_z end_z steps).2.2 =
      [Event.readPosition, Event.move .abs (fullCmd { s with z := start_z }),
        Event.move .abs (fullCmd s), Event.readPosition] := by
  have h1 : ¬ (1 : Int) < steps := by omega
  have h2 : steps.toNat = 0 := Int.toNat_of_nonpos h
  refine ⟨?_, ?_, ?_⟩ <;> simp [run_z_stack, h1, h2, zstackIter]

/-- Witness for C9 at `steps = -2`. -/
theorem run_z_stack_nonpositive_witness :
    (-2 : Int) ≤ 0 ∧
    ((run_z_stack demoDev ⟨1, 2, 3⟩ 5 9 (-2)).1.captured = [] ∧
      (run_z_stack demoDev ⟨1, 2, 3⟩ 5 9 (-2)).1.zStep = .int 0 ∧
      (run_z_stack demoDev ⟨1, 2, 3⟩ 5 9 (-2)).2.2 =
        [Event.readPosition, Event.move .abs ⟨some 1, some 2, some 5⟩,
          Event.move .abs ⟨some 1, some 2, some 3⟩, Event.readPosition]) :=
  ⟨by decide, run_z_stack_nonpositive demoDev ⟨1, 2, 3⟩ 5 9 (-2) (by decide)⟩

/-- C4: when no axis is supplied, `move_stage` returns the validation
failure and the trace is empty: the device is neither moved nor read. -/
theorem move_stage_no_axes (dev : DeviceModel) (s : Position)
    (relative : Bool) :
    (move_stage dev s none none none relative).1 = .noPosition ∧
    (move_stage dev s none none none relative).2.1 = s ∧
    (move_stage dev s none none none relative).2.2 = [] := by
  refine ⟨?_, ?_, ?_⟩ <;> simp [move_stage, PosCmd.isEmpty]

/-- C5: `call_extension` validates the extension identifier first
(failing with the listing of known identifiers and an empty trace), then
the link name (failing with the listing of that extension and an empty
trace); a known pair dispatches a parameter-less fetch for a
case-insensitive `get`, a fetch carrying the payload (defaulted to the
empty dict) for a case-insensitive `post`, and rejects any other method
without contacting the device. -/
theorem call_extension_validation (exts : Extensions)
    (en ln method : String) (payload : Option (List (String × String))) :
    (exts.lookup en = none →
      call_extension exts en ln method payload =
        (.unknownExtension en (exts.map Prod.fst), [])) ∧
    (∀ links, exts.lookup en = some links → links.lookup ln = none →
      call_extension exts en ln method payload =
        (.unknownLink en ln (links.map Prod.fst), [])) ∧
    (∀ links l, exts.lookup en = some links → links.lookup ln = some l →
      strLower method = "get" →
        (call_extension exts en ln method payload).2 = [.extGet en ln]) ∧
    (∀ links l, exts.lookup en = some links → links.lookup ln = some l →
      strLower method = "post" →
        (call_extension exts en ln method payload).2 =
          [.extPost en ln (payload.getD [])]) ∧
    (∀ links l, exts.lookup en = some links → links.lookup ln = some l →
      strLower method ≠ "get" → strLower method ≠ "post" →
        call_extension exts en ln method payload =
          (.unknownMethod method, [])) := by
  refine ⟨fun h => ?_, fun links h1 h2 => ?_, fun links l h1 h2 h3 => ?_,
    fun links l h1 h2 h3 => ?_, fun links l h1 h2 h3 h4 => ?_⟩
  · simp [call_extension, h]
  · simp [call_extension, h1, h2]
  · cases hg : l.get <;> simp [call_extension, h1, h2, h3, hg]
  · have h3' : ¬ strLower method = "get" := by simp [h3]
    cases hp : l.post (payload.getD []) <;>
      simp [call_extension, h1, h2, h3, h3', hp]
  · simp [call_extension, h1, h2, h3, h4]

/-- Witness for C5 over the demo registry: each validation branch at a
concrete input. -/
theorem call_extension_validation_witness :
    call_extension demoExts "bogus" "device-info" "get" none =
      (.unknownExtension "bogus" ["org.openflexure.microscope"], []) ∧
    call_extension demoExts "org.openflexure.microscope" "bogus" "get" none =
      (.unknownLink "org.openflexure.microscope" "bogus" ["device-info"], []) ∧
    (call_extension demoExts "org.openflexure.microscope" "device-info"
        "GET" none).2 =
      [.extGet "org.openflexure.microscope" "device-info"] ∧
    (call_extension demoExts "org.openflexure.microscope" "device-info"
        "Post" none).2 =
      [.extPost "org.openflexure.microscope" "device-info" []] ∧
    call_extension demoExts "org.openflexure.microscope" "device-info"
        "delete" none =
      (.unknownMethod "delete", []) := by
  refine ⟨?_, ?_, ?_, ?_, ?_⟩
  · exact (call_extension_validation demoExts "bogus" "device-info"
      "get" none).1 rfl
  · exact (call_extension_validation demoExts "org.openflexure.microscope"
      "bogus" "get" none).2.1 _ rfl rfl
  · exact (call_extension_validation demoExts "org.openflexure.microscope"
      "device-info" "GET" none).2.2.1 _ _ rfl rfl rfl
  · exact (call_extension_validation demoExts "org.openflexure.microscope"
      "device-info" "Post" none).2.2.2.1 _ _ rfl rfl rfl
  · exact (call_extension_validation demoExts "org.openflexure.microscope"
      "device-info" "delete" none).2.2.2.2 _ _ rfl rfl
      (by decide) (by decide)

/-- C7: once validation passes, an exception raised by the dispatched
`get()` or `post_json()` is converted into the caught-error result; the
embedding is a total function, so nothing propagates. -/
theorem call_extension_catches (exts : Extensions) (en ln method : String)
    (payload : Option (List (String × String)))
    (links : List (String × Link)) (l : Link) (e : String)
    (h1 : exts.lookup en = some links) (h2 : links.lookup ln = some l) :
    (strLower method = "get" → l.get = .error e →
      (call_extension exts en ln method payload).1 = .dispatchError e) ∧
    (strLower method = "post" → l.post (payload.getD []) = .error e →
      (call_extension exts en ln method payload).1 = .dispatchError e) := by
  constructor
  · intro h3 hg
    simp [call_extension, h1, h2, h3, hg]
  · intro h3 hp
    by_cases h3' : strLower method = "get"
    · simp [h3] at h3'
    · simp [call_extension, h1, h2, h3, h3', hp]

/-- Witness for C7 over the registry whose link raises on both methods. -/
theorem call_extension_catches_witness :
    (call_extension failExts "ext" "lnk" "get" none).1 =
      .dispatchError "boom" ∧
    (call_extension failExts "ext" "lnk" "post"
        (some [("a", "b")])).1 = .dispatchError "kaboom" := by
  constructor
  · exact (call_extension_catches failExts "ext" "lnk" "get" none _ _
      "boom" rfl rfl).1 rfl rfl
  · exact (call_extension_catches failExts "ext" "lnk" "post"
      (some [("a", "b")]) _ _ "kaboom" rfl rfl).2 rfl rfl

/-- C8: when the device-info fetch raises, `get_microscope_info` still
returns the fallback report carrying the connection address, the list of
active extension identifiers and the note about the failure. -/
theorem get_microscope_info_degrades (e : String)
    (extensions : List String) :
    get_microscope_info (.error e) extensions =
      .degraded "192.168.100.124" extensions e := by
  simp [get_microscope_info]

/-- C10: `get_position` is total on dicts with missing axis keys: every
missing axis renders as 0, every present axis renders as its value, and
the raw array passes through unchanged. -/
theorem get_position_defaults (d : PosDict) (arr : List Int) :
    (get_position d arr).array = arr ∧
    (d.x = none → (get_position d arr).x = 0) ∧
    (d.y = none → (get_position d arr).y = 0) ∧
    (d.z = none → (get_position d arr).z = 0) ∧
    (∀ v, d.x = some v → (get_position d arr).x = v) ∧
    (∀ v, d.y = some v → (get_position d arr).y = v) ∧
    (∀ v, d.z = some v → (get_position d arr).z = v) := by
  refine ⟨rfl, fun h => ?_, fun h => ?_, fun h => ?_,
    fun v h => ?_, fun v h => ?_, fun v h => ?_⟩ <;>
    simp [get_position, h]

/-- Witness for C10 on a dict lacking the x and z keys. -/
theorem get_position_defaults_witness :
    (get_position ⟨none, some 7, none⟩ [7]).array = [7] ∧
    (get_position ⟨none, some 7, none⟩ [7]).x = 0 ∧
    (get_position ⟨none, some 7, none⟩ [7]).y = 7 ∧
    (get_position ⟨none, some 7, none⟩ [7]).z = 0 := by
  have h := get_position_defaults ⟨none, some 7, none⟩ [7]
  exact ⟨h.1, h.2.1 rfl, h.2.2.2.2.2.1 7 rfl, h.2.2.2.1 rfl⟩

end OpenFlexure
